import Mathlib

/-!
Verification of `src/scripts/snyk-github-issue-sync.ts`: a script that
reconciles a Snyk vulnerability report against a GitHub repository's open
issues, creating, updating, or closing issues so that the tracker matches
the current scan results.

The embedding below translates the script's data model and logic into
executable Lean definitions:
JavaScript objects used as string-keyed records become association lists,
`undefined`-able fields become `Option`, and the single regular expression
`/\[([A-Z0-9-:]+)]/i` becomes an explicit leftmost-match scanner over
character lists.  The GitHub REST API is an external collaborator; the
few facts needed about it (issue numbers, effect of the update endpoint)
are modelled from the specification and marked as such.
-/

/-- One affected package of a vulnerability: the source's
`{ name: string; target: string }` element of `Vulnerability.packages`. -/
structure Package where
  name : String
  target : String
deriving DecidableEq, Repr

/-- The source's `Vulnerability` type (field order as declared there). -/
structure Vulnerability where
  description : String
  packages : List Package
  snykId : String
deriving DecidableEq, Repr

/-- One finding of the Snyk report: `{ id, description }`.  The script
checks both fields against `undefined`, so they are `Option` here. -/
structure Finding where
  id : Option String
  description : Option String
deriving DecidableEq, Repr

/-- One entry of `snyk.json`: a scanned project with its findings. -/
structure ScanProject where
  projectName : String
  displayTargetFile : String
  vulnerabilities : List Finding
deriving DecidableEq, Repr

/-- A GitHub issue as far as the script observes or mutates it. -/
structure GithubIssue where
  number : Nat
  title : String
  labels : List String
  body : String
  state : String
deriving DecidableEq, Repr

/-- The fixed label `SNYK_GH_LABEL` from the source. -/
def SNYK_GH_LABEL : String := "snyk-vulnerability"

/-! ### Association lists standing in for JavaScript records

JavaScript objects keyed by strings (`Record<string, number>`,
`Record<string, Vulnerability>`) are modelled as association lists in
insertion order: assignment to an existing key overwrites it in place,
assignment of a fresh key appends at the end, mirroring JS property
insertion order. -/

/-- Lookup of `record[k]` (returns the value of the first entry for `k`). -/
def lookupKey (m : List (String × α)) (k : String) : Option α :=
  match m with
  | [] => none
  | e :: es => if e.1 = k then some e.2 else lookupKey es k

/-- Assignment `record[k] = v`: overwrite in place or append. -/
def setKey (m : List (String × α)) (k : String) (v : α) : List (String × α) :=
  match m with
  | [] => [(k, v)]
  | e :: es => if e.1 = k then (k, v) :: es else e :: setKey es k v

/-! ### The identifier-extraction regular expression

`SNYK_ID_REGEX = /\[([A-Z0-9-:]+)]/i` applied with `.exec` finds the
leftmost occurrence of a literal `[`, followed by a nonempty greedy run of
characters of the class `[A-Z0-9-:]` (case-insensitive, hence also
`a`–`z`), followed by a literal `]`, and captures the run.  Because the
class excludes `]`, greedy backtracking never helps, so a match starting
at a given `[` succeeds exactly when the maximal class run after it is
nonempty and immediately followed by `]`. -/

/-- Membership in the character class `[A-Z0-9-:]` under the `i` flag. -/
def isSnykIdChar (c : Char) : Bool :=
  ('A' ≤ c && c ≤ 'Z') || ('a' ≤ c && c ≤ 'z') || ('0' ≤ c && c ≤ '9')
    || c = '-' || c = ':'

/-- Split off the maximal leading run of identifier-class characters. -/
def takeIdRun (l : List Char) : List Char × List Char :=
  match l with
  | [] => ([], [])
  | c :: cs =>
    if isSnykIdChar c then
      ((c :: (takeIdRun cs).1), (takeIdRun cs).2)
    else ([], c :: cs)

/-- The regex `SNYK_ID_REGEX.exec` on a character list: the captured group of the
leftmost match, or `none` when the regex does not match. -/
def snykIdExecL (l : List Char) : Option (List Char) :=
  match l with
  | [] => none
  | c :: cs =>
    if c = '[' then
      if (takeIdRun cs).1 ≠ [] ∧ (takeIdRun cs).2.head? = some ']' then
        some (takeIdRun cs).1
      else snykIdExecL cs
    else snykIdExecL cs

/-- Extraction `SNYK_ID_REGEX.exec(title)?.[1]` on a `String`; the captured
identifier is returned exactly as it occurs in the title. -/
def snykIdExtract (s : String) : Option String :=
  (snykIdExecL s.data).map (fun l => { data := l })

/-! ### IssueIndexer (`fetchSnykGithubIssueMap`) -/

/-- Modelled from the spec: the issue tracker's paginated
list-issues-by-label-and-state query (`octokit.rest.issues.listForRepo`
with `state: 'open'`, `labels: SNYK_GH_LABEL`) returns exactly the open
issues carrying the fixed label, in order. -/
def openLabeledIssues (repo : List GithubIssue) : List GithubIssue :=
  repo.filter (fun i => i.state = "open" && i.labels.contains SNYK_GH_LABEL)

/-- The loop body of `fetchSnykGithubIssueMap`: on a successful match the
captured identifier is mapped to the issue number, otherwise the title is
logged (`Unmatched Snyk ID for ...`) and the issue contributes nothing. -/
def issueIndexStep (acc : List (String × Nat) × List String) (i : GithubIssue) :
    List (String × Nat) × List String :=
  match snykIdExtract i.title with
  | some id => (setKey acc.1 id i.number, acc.2)
  | none => (acc.1, acc.2 ++ ["Unmatched Snyk ID for " ++ i.title])

/-- The indexer `fetchSnykGithubIssueMap` together with its console output. -/
def fetchSnykGithubIssueMapRun (repo : List GithubIssue) :
    List (String × Nat) × List String :=
  (openLabeledIssues repo).foldl issueIndexStep ([], [])

/-- The identifier → issue-number index built by `fetchSnykGithubIssueMap`. -/
def fetchSnykGithubIssueMap (repo : List GithubIssue) : List (String × Nat) :=
  (fetchSnykGithubIssueMapRun repo).1

/-! ### IssueFormatter (`generateIssueBody`) -/

/-- The formatter `generateIssueBody`: the template literal rendering one bullet line
`* [name](target)` per affected package, followed by the raw description. -/
def generateIssueBody (v : Vulnerability) : String :=
  "\n## Affecting Packages/Plugins\n\n" ++
    String.intercalate "\n"
      (v.packages.map (fun p => "* [" ++ p.name ++ "](" ++ p.target ++ ")")) ++
    "\n\n" ++ v.description ++ "\n"

/-! ### VulnerabilityGrouper (the first loop of `main`) -/

/-- The body of the nested `forEach` in `main` for a single finding:
skip findings whose `id` or `description` is `undefined`; on the first
occurrence of an id start a record; on later occurrences append the
package only when its name is not already present. -/
def groupStep (pn tf : String) (store : List (String × Vulnerability))
    (f : Finding) : List (String × Vulnerability) :=
  match f.id, f.description with
  | some id, some descr =>
    match lookupKey store id with
    | some v =>
      if v.packages.any (fun p => p.name = pn) then store
      else setKey store id { v with packages := v.packages ++ [{ name := pn, target := tf }] }
    | none =>
      store ++ [(id, { description := descr
                       packages := [{ name := pn, target := tf }]
                       snykId := id })]
  | _, _ => store

/-- The `vulnerabilityStore` built by the grouping loop of `main`. -/
def groupReport (report : List ScanProject) : List (String × Vulnerability) :=
  report.foldl
    (fun store p =>
      p.vulnerabilities.foldl (fun s f => groupStep p.projectName p.displayTargetFile s f) store)
    []

/-! ### Reconciler (the two loops of `main`) -/

/-- The reconciliation decision for one identifier, tagged with the loop
variable (`id` of the first loop, `snykId` of the second) it arose from. -/
inductive SyncOp where
  | create (id : String) (v : Vulnerability)
  | update (id : String) (issueNumber : Nat) (v : Vulnerability)
  | close (id : String) (issueNumber : Nat)
deriving DecidableEq, Repr

/-- The decision sequence of `main`'s two loops: for each store entry,
`if (snykGithubIssueMap[id])` (JS truthiness: a present, nonzero number)
update, else create; then for each index entry whose identifier is not in
the store, close. -/
def computePlan (store : List (String × Vulnerability))
    (index : List (String × Nat)) : List SyncOp :=
  store.map (fun e =>
    match lookupKey index e.1 with
    | some n => if n ≠ 0 then SyncOp.update e.1 n e.2 else SyncOp.create e.1 e.2
    | none => SyncOp.create e.1 e.2) ++
  index.filterMap (fun e =>
    if (lookupKey store e.1).isSome then none else some (SyncOp.close e.1 e.2))

/-- A call to the issue tracker, as issued by the three mutating helpers:
`issues.create`, `issues.update` with a `body`, and `issues.update` with a
`state`. -/
inductive ApiCall where
  | createIssue (title : String) (labels : List String) (body : String)
  | updateBody (number : Nat) (body : String)
  | updateState (number : Nat) (state : String)
deriving DecidableEq, Repr

/-- The console output of `createGithubIssue` / `updateGithubIssue` /
`closeGithubIssue` (always printed, also in dry-run mode). -/
def opLogs (op : SyncOp) : List String :=
  match op with
  | .create _ v =>
    ("Create Github Issue for Snyk Vulnerability " ++ v.snykId)
      :: v.packages.map (fun p => "- " ++ p.name ++ " [" ++ p.target ++ "]")
  | .update _ n v =>
    ["Update Github Issue #" ++ toString n ++ " for Snky Vulnerability " ++ v.snykId]
  | .close _ n => ["Closing Github Issue #" ++ toString n]

/-- The tracker calls of `createGithubIssue` / `updateGithubIssue` /
`closeGithubIssue`: each helper guards its single call with `if (!isDryRun)`. -/
def opCalls (dryRun : Bool) (op : SyncOp) : List ApiCall :=
  match op with
  | .create _ v =>
    if dryRun then [] else
      [ApiCall.createIssue ("Snyk vulnerability [" ++ v.snykId ++ "]")
        [SNYK_GH_LABEL, "help wanted"] (generateIssueBody v)]
  | .update _ n v =>
    if dryRun then [] else [ApiCall.updateBody n (generateIssueBody v)]
  | .close _ n =>
    if dryRun then [] else [ApiCall.updateState n "closed"]

/-- The two reconciliation loops of `main` over an already-built store and
index: the console lines and tracker calls they produce, in order. -/
def mainRun (dryRun : Bool) (store : List (String × Vulnerability))
    (index : List (String × Nat)) : List String × List ApiCall :=
  (((computePlan store index).map opLogs).flatten,
   ((computePlan store index).map (opCalls dryRun)).flatten)

/-- The whole script: the eager `GITHUB_TOKEN` check at module top level
(`if (!process.env.GITHUB_TOKEN)`, so an absent or empty variable exits
with code 1 before any tracker query or report processing), then `main`. -/
def runProgram (githubToken : Option String) (dryRun : Bool)
    (repo : List GithubIssue) (report : List ScanProject) :
    Except (Nat × String) (List String × List ApiCall) :=
  match githubToken with
  | none => .error (1, "GITHUB_TOKEN is not set. Please provide a Github token")
  | some t =>
    if t = "" then .error (1, "GITHUB_TOKEN is not set. Please provide a Github token")
    else .ok (mainRun dryRun (groupReport report) (fetchSnykGithubIssueMap repo))

/-! ### The issue tracker, modelled from the spec -/

/-- Modelled from the spec: the tracker assigns each created issue a fresh
number, larger than every existing one (and hence positive). -/
def nextIssueNumber (repo : List GithubIssue) : Nat :=
  (repo.map (fun i => i.number)).foldl max 0 + 1

/-- Modelled from the spec: the effect of the three tracker operations the
script consumes — `create-issue(title, labels, body)` opens a fresh issue,
`update-issue(number, body)` replaces only the body of that issue, and
`update-issue(number, state)` replaces only its state. -/
def applyApiCall (repo : List GithubIssue) (c : ApiCall) : List GithubIssue :=
  match c with
  | .createIssue title labels body =>
    repo ++ [{ number := nextIssueNumber repo, title := title, labels := labels
               body := body, state := "open" }]
  | .updateBody n body =>
    repo.map (fun i => if i.number = n then { i with body := body } else i)
  | .updateState n st =>
    repo.map (fun i => if i.number = n then { i with state := st } else i)

/-! ### Specification-side characterizations

These definitions follow the wording of the claims (first-seen order,
deduplication by name, first description wins, the index after a run);
the theorems below relate them to the source-translated functions. -/

/-- The findings of the report flattened in scan order, each paired with
its project name and target file. -/
def reportFindings (report : List ScanProject) : List (String × String × Finding) :=
  (report.map (fun p =>
    p.vulnerabilities.map (fun f => (p.projectName, p.displayTargetFile, f)))).flatten

/-- Whether a flattened finding is a valid occurrence of identifier `id`:
its `id` field is `some id` and its description is present. -/
def validFor (id : String) (t : String × String × Finding) : Bool :=
  t.2.2.id = some id && t.2.2.description.isSome

/-- The affected packages of identifier `id`, in report scan order, with
repetitions. -/
def occPackages (l : List (String × String × Finding)) (id : String) : List Package :=
  l.filterMap (fun t => if validFor id t then some { name := t.1, target := t.2.1 } else none)

/-- The description of the first valid finding for `id` in scan order. -/
def firstDescr (l : List (String × String × Finding)) (id : String) : Option String :=
  (l.find? (validFor id)).bind (fun t => t.2.2.description)

/-- Deduplication by package name keeping the first occurrence of each
name, in first-seen order. -/
def firstSeenByName (l : List Package) : List Package :=
  l.foldl (fun acc p => if acc.any (fun q => q.name = p.name) then acc else acc ++ [p]) []

/-- The report with every finding whose `id` or `description` is missing
removed. -/
def cleanReport (report : List ScanProject) : List ScanProject :=
  report.map (fun p =>
    { p with vulnerabilities :=
        p.vulnerabilities.filter (fun f => f.id.isSome && f.description.isSome) })

/-- The identifier a reconciliation decision is about. -/
def opId (op : SyncOp) : String :=
  match op with
  | .create i _ => i
  | .update i _ _ => i
  | .close i _ => i

/-- The decisions of a plan concerning one identifier. -/
def opsForId (id : String) (plan : List SyncOp) : List SyncOp :=
  plan.filter (fun op => opId op = id)

/-- The issue index after a reconciliation run, as claim C2 words it: the
run's CLOSE operations remove the identifiers absent from the store, and
its CREATE operations add each store identifier that was absent from the
index, under a fresh issue number assigned by the tracker. -/
def indexAfterRun (store : List (String × Vulnerability))
    (index : List (String × Nat)) (fresh : String → Nat) : List (String × Nat) :=
  index.filter (fun e => (lookupKey store e.1).isSome) ++
    store.filterMap (fun e =>
      if (lookupKey index e.1).isSome then none else some (e.1, fresh e.1))

/-- The step `groupStep` applied to one flattened finding. -/
def tripleStep (s : List (String × Vulnerability)) (t : String × String × Finding) :
    List (String × Vulnerability) :=
  groupStep t.1 t.2.1 s t.2.2

/-- The grouping loop over an already-flattened list of findings. -/
def gfold (l : List (String × String × Finding)) : List (String × Vulnerability) :=
  l.foldl tripleStep []

/-! ### Association-list lemmas -/

theorem lookupKey_append (a b : List (String × α)) (k : String) :
    lookupKey (a ++ b) k = (lookupKey a k).orElse (fun _ => lookupKey b k) := by
  induction a with
  | nil => simp [lookupKey]
  | cons e es ih =>
    by_cases h : e.1 = k <;> simp [lookupKey, h, ih]

theorem lookupKey_eq_none_iff (m : List (String × α)) (k : String) :
    lookupKey m k = none ↔ ∀ e ∈ m, e.1 ≠ k := by
  induction m with
  | nil => simp [lookupKey]
  | cons e es ih =>
    by_cases h : e.1 = k <;> simp [lookupKey, h, ih]

theorem lookupKey_isSome_iff (m : List (String × α)) (k : String) :
    (lookupKey m k).isSome = true ↔ k ∈ m.map Prod.fst := by
  induction m with
  | nil => simp [lookupKey]
  | cons e es ih =>
    by_cases h : e.1 = k
    · simp [lookupKey, h]
    · simp only [lookupKey, h, if_false, List.map_cons, List.mem_cons, ih]
      constructor
      · exact fun hm => Or.inr hm
      · rintro (h1 | h1)
        · exact absurd h1.symm h
        · exact h1

theorem lookupKey_mem (m : List (String × α)) (k : String) (v : α)
    (h : lookupKey m k = some v) : (k, v) ∈ m := by
  induction m with
  | nil => simp [lookupKey] at h
  | cons e es ih =>
    obtain ⟨a, b⟩ := e
    by_cases he : a = k
    · subst he
      simp [lookupKey] at h
      subst h
      exact List.mem_cons_self _ _
    · simp [lookupKey, he] at h
      exact List.mem_cons_of_mem _ (ih h)

theorem lookupKey_setKey_self (m : List (String × α)) (k : String) (v : α) :
    lookupKey (setKey m k v) k = some v := by
  induction m with
  | nil => simp [setKey, lookupKey]
  | cons e es ih =>
    by_cases h : e.1 = k <;> simp [setKey, lookupKey, h, ih]

theorem lookupKey_setKey_other (m : List (String × α)) (k k' : String) (v : α)
    (h : k' ≠ k) : lookupKey (setKey m k v) k' = lookupKey m k' := by
  have hkk : ¬ k = k' := fun hh => h hh.symm
  induction m with
  | nil => simp [setKey, lookupKey, hkk]
  | cons e es ih =>
    by_cases he : e.1 = k
    · have he' : ¬ e.1 = k' := by rw [he]; exact hkk
      simp [setKey, lookupKey, he, hkk, he']
    · simp [setKey, lookupKey, he, ih]

theorem setKey_keys (m : List (String × α)) (k : String) (v : α)
    (h : k ∈ m.map Prod.fst) :
    (setKey m k v).map Prod.fst = m.map Prod.fst := by
  induction m with
  | nil => simp at h
  | cons e es ih =>
    by_cases he : e.1 = k
    · simp [setKey, he]
    · have : k ∈ es.map Prod.fst := by
        rcases List.mem_map.mp h with ⟨x, hx, hx1⟩
        rcases List.mem_cons.mp hx with h1 | h1
        · exact absurd (h1 ▸ hx1) he
        · exact List.mem_map.mpr ⟨x, h1, hx1⟩
      simp [setKey, he, ih this]

theorem setKey_of_not_mem (m : List (String × α)) (k : String) (v : α)
    (h : ¬ k ∈ m.map Prod.fst) : setKey m k v = m ++ [(k, v)] := by
  induction m with
  | nil => simp [setKey]
  | cons e es ih =>
    simp only [List.map_cons, List.mem_cons, not_or] at h
    have h1 : ¬ e.1 = k := fun hh => h.1 hh.symm
    simp [setKey, h1, ih h.2]

/-! ### Lemmas about the identifier-extraction scanner -/

theorem takeIdRun_append (l : List Char) :
    (takeIdRun l).1 ++ (takeIdRun l).2 = l := by
  induction l with
  | nil => simp [takeIdRun]
  | cons c cs ih =>
    by_cases h : isSnykIdChar c <;> simp [takeIdRun, h, ih]

theorem takeIdRun_chars (l : List Char) :
    ∀ c ∈ (takeIdRun l).1, isSnykIdChar c = true := by
  induction l with
  | nil => simp [takeIdRun]
  | cons c cs ih =>
    by_cases h : isSnykIdChar c
    · simp only [takeIdRun, h, if_true]
      intro d hd
      rcases List.mem_cons.mp hd with h1 | h1
      · exact h1 ▸ h
      · exact ih d h1
    · simp [takeIdRun, h]

theorem takeIdRun_of_run (tok : List Char) (d : Char) (rest : List Char)
    (htok : ∀ c ∈ tok, isSnykIdChar c = true) (hd : isSnykIdChar d = false) :
    takeIdRun (tok ++ d :: rest) = (tok, d :: rest) := by
  induction tok with
  | nil => simp [takeIdRun, hd]
  | cons c cs ih =>
    have hc : isSnykIdChar c = true := htok c (List.mem_cons_self _ _)
    have ih' := ih (fun x hx => htok x (List.mem_cons_of_mem _ hx))
    simp [takeIdRun, hc, ih']

/-- Soundness of the scanner: a successful extraction really is a
bracketed nonempty token of class characters occurring verbatim in the
input. -/
theorem snykIdExecL_sound (l tok : List Char) (h : snykIdExecL l = some tok) :
    ∃ pre post, l = pre ++ '[' :: (tok ++ ']' :: post) ∧ tok ≠ [] ∧
      ∀ c ∈ tok, isSnykIdChar c = true := by
  induction l with
  | nil => simp [snykIdExecL] at h
  | cons c cs ih =>
    simp only [snykIdExecL] at h
    split at h
    case isTrue hc =>
      split at h
      case isTrue hcond =>
        rcases hcond with ⟨hne, hhead⟩
        simp only [Option.some.injEq] at h
        subst h
        subst hc
        obtain ⟨r2, hr2⟩ : ∃ r2, (takeIdRun cs).2 = ']' :: r2 := by
          cases hr : (takeIdRun cs).2 with
          | nil => rw [hr] at hhead; simp at hhead
          | cons x xs =>
            rw [hr] at hhead
            simp at hhead
            exact ⟨xs, by rw [hhead]⟩
        refine ⟨[], r2, ?_, hne, takeIdRun_chars cs⟩
        have hap := takeIdRun_append cs
        rw [hr2] at hap
        rw [List.nil_append, hap]
      case isFalse hcond =>
        rcases ih h with ⟨pre, post, hl, hne, hchars⟩
        exact ⟨c :: pre, post, by simp [hl], hne, hchars⟩
    case isFalse hc =>
      rcases ih h with ⟨pre, post, hl, hne, hchars⟩
      exact ⟨c :: pre, post, by simp [hl], hne, hchars⟩

/-- Completeness of the scanner: on any input containing a bracketed
nonempty token of class characters, extraction succeeds. -/
theorem snykIdExecL_complete (pre tok post : List Char) (hne : tok ≠ [])
    (htok : ∀ c ∈ tok, isSnykIdChar c = true) :
    (snykIdExecL (pre ++ '[' :: (tok ++ ']' :: post))).isSome = true := by
  induction pre with
  | nil =>
    have hrun : takeIdRun (tok ++ ']' :: post) = (tok, ']' :: post) :=
      takeIdRun_of_run tok ']' post htok (by decide)
    simp [snykIdExecL, hrun, hne]
  | cons c cs ih =>
    rw [List.cons_append]
    simp only [snykIdExecL]
    split
    · split
      · simp
      · exact ih
    · exact ih

/-! ### Lemmas about the grouping loop -/

theorem reportFindings_cons (p : ScanProject) (ps : List ScanProject) :
    reportFindings (p :: ps) =
      p.vulnerabilities.map (fun f => (p.projectName, p.displayTargetFile, f)) ++
        reportFindings ps := by
  simp [reportFindings]

theorem groupReport_aux (report : List ScanProject) (s : List (String × Vulnerability)) :
    report.foldl (fun store p => p.vulnerabilities.foldl
        (fun s2 f => groupStep p.projectName p.displayTargetFile s2 f) store) s
      = (reportFindings report).foldl tripleStep s := by
  induction report generalizing s with
  | nil => rfl
  | cons p ps ih =>
    rw [List.foldl_cons, reportFindings_cons, List.foldl_append, List.foldl_map]
    exact ih _

/-- The nested grouping loop equals the fold over the flattened findings. -/
theorem groupReport_eq_gfold (report : List ScanProject) :
    groupReport report = gfold (reportFindings report) :=
  groupReport_aux report []

theorem gfold_concat (l : List (String × String × Finding)) (t : String × String × Finding) :
    gfold (l ++ [t]) = tripleStep (gfold l) t := by
  simp [gfold, List.foldl_append]

theorem firstSeenByName_concat (l : List Package) (p : Package) :
    firstSeenByName (l ++ [p]) =
      if (firstSeenByName l).any (fun q => q.name = p.name) then firstSeenByName l
      else firstSeenByName l ++ [p] := by
  simp [firstSeenByName, List.foldl_append]

theorem occPackages_concat (l : List (String × String × Finding))
    (t : String × String × Finding) (id : String) :
    occPackages (l ++ [t]) id = occPackages l id ++
      (if validFor id t then [{ name := t.1, target := t.2.1 }] else []) := by
  simp only [occPackages, List.filterMap_append]
  congr 1
  by_cases h : validFor id t <;> simp [h]

theorem validFor_description_isSome (id : String) (t : String × String × Finding)
    (h : validFor id t = true) : t.2.2.description.isSome = true := by
  simp only [validFor, Bool.and_eq_true] at h
  exact h.2

theorem firstDescr_concat (l : List (String × String × Finding))
    (t : String × String × Finding) (id : String) :
    firstDescr (l ++ [t]) id =
      (firstDescr l id).orElse
        (fun _ => if validFor id t then t.2.2.description else none) := by
  induction l with
  | nil =>
    by_cases h : validFor id t <;> simp [firstDescr, List.find?, h]
  | cons x xs ih =>
    by_cases hx : validFor id x
    · obtain ⟨d, hd⟩ := Option.isSome_iff_exists.mp (validFor_description_isSome id x hx)
      simp [firstDescr, List.find?_cons, hx, hd]
    · simp only [List.cons_append, firstDescr, List.find?_cons, hx] at *
      simpa [hx] using ih

theorem occPackages_eq_nil (l : List (String × String × Finding)) (id : String)
    (h : firstDescr l id = none) : occPackages l id = [] := by
  induction l with
  | nil => simp [occPackages]
  | cons x xs ih =>
    by_cases hx : validFor id x
    · exfalso
      simp only [firstDescr, List.find?_cons, hx, if_pos, Option.some_bind] at h
      have hs := validFor_description_isSome id x hx
      rw [h] at hs
      simp at hs
    · simp only [firstDescr, List.find?_cons, hx] at h
      simp only [occPackages, List.filterMap_cons, hx, if_neg]
      simpa [occPackages, firstDescr] using ih (by simpa [firstDescr] using h)

/-- Characterization of the grouping loop: the record stored under an
identifier has the description of the first valid finding for it and its
affected packages deduplicated by name in first-seen order. -/
theorem gfold_lookup (l : List (String × String × Finding)) (id : String) :
    lookupKey (gfold l) id =
      (firstDescr l id).map (fun d =>
        { description := d, packages := firstSeenByName (occPackages l id), snykId := id }) := by
  induction l using List.reverseRecOn with
  | nil => simp [gfold, lookupKey, firstDescr, occPackages]
  | append_singleton l t ih =>
    rcases t with ⟨pn, tf, f⟩
    rcases f with ⟨fid, fdesc⟩
    rw [gfold_concat, firstDescr_concat, occPackages_concat]
    cases fid with
    | none =>
      have hv : validFor id (pn, tf, (⟨none, fdesc⟩ : Finding)) = false := by
        simp [validFor]
      have hstep : tripleStep (gfold l) (pn, tf, (⟨none, fdesc⟩ : Finding)) = gfold l := rfl
      rw [hstep, ih, hv]
      cases hfd : firstDescr l id <;> simp
    | some id0 =>
      cases fdesc with
      | none =>
        have hv : validFor id (pn, tf, (⟨some id0, none⟩ : Finding)) = false := by
          simp [validFor]
        have hstep : tripleStep (gfold l) (pn, tf, (⟨some id0, none⟩ : Finding)) = gfold l := rfl
        rw [hstep, ih, hv]
        cases hfd : firstDescr l id <;> simp
      | some d0 =>
        by_cases hid : id0 = id
        · subst hid
          have hv : validFor id0 (pn, tf, (⟨some id0, some d0⟩ : Finding)) = true := by
            simp [validFor]
          simp only [tripleStep, groupStep]
          cases hl : lookupKey (gfold l) id0 with
          | none =>
            have hfd : firstDescr l id0 = none := by
              rw [hl] at ih
              exact Option.map_eq_none'.mp ih.symm
            have hocc : occPackages l id0 = [] := occPackages_eq_nil l id0 hfd
            rw [lookupKey_append, hl, hfd, hocc]
            simp [lookupKey, firstSeenByName, hv]
          | some v =>
            obtain ⟨d, hd, hvv⟩ : ∃ d, firstDescr l id0 = some d ∧
                ({ description := d, packages := firstSeenByName (occPackages l id0),
                   snykId := id0 } : Vulnerability) = v := by
              rw [hl] at ih
              exact Option.map_eq_some'.mp ih.symm
            have hpk : v.packages = firstSeenByName (occPackages l id0) := by
              rw [← hvv]
            by_cases hany : (v.packages.any fun p => p.name = pn) = true
            · have hany2 : ((firstSeenByName (occPackages l id0)).any
                  fun q => q.name = pn) = true := by
                rw [← hpk]
                exact hany
              simp only [hany, if_true, hv, hd, if_pos, Option.some_orElse,
                Option.map_some', firstSeenByName_concat]
              rw [hl]
              simp [hany2, ← hvv]
            · have hany2 : ¬ ((firstSeenByName (occPackages l id0)).any
                  fun q => q.name = pn) = true := by
                rw [← hpk]
                exact hany
              simp only [Bool.not_eq_true] at hany
              simp only [hany, Bool.false_eq_true, if_false, hv, hd,
                Option.some_orElse, Option.map_some', firstSeenByName_concat]
              rw [lookupKey_setKey_self]
              simp only [Bool.not_eq_true] at hany2
              simp only [← hvv, if_true, Option.some_orElse, Option.map_some']
              rw [firstSeenByName_concat]
              simp [hany2]
        · have hv : validFor id (pn, tf, (⟨some id0, some d0⟩ : Finding)) = false := by
            simp only [validFor, Option.isSome_some, Bool.and_true,
              Option.some.injEq, decide_eq_false_iff_not]
            exact hid
          simp only [tripleStep, groupStep]
          cases hl : lookupKey (gfold l) id0 with
          | none =>
            rw [lookupKey_append]
            have h2 : lookupKey [(id0,
                ({ description := d0, packages := [{ name := pn, target := tf }],
                   snykId := id0 } : Vulnerability))] id = none := by
              simp [lookupKey, hid]
            rw [h2, ih, hv]
            cases hfd : firstDescr l id <;> simp
          | some v =>
            by_cases hany : (v.packages.any fun p => p.name = pn) = true
            · simp only [hany, if_true, hv]
              rw [ih]
              cases hfd : firstDescr l id <;> simp
            · simp only [Bool.not_eq_true] at hany
              simp only [hany, Bool.false_eq_true, if_false, hv]
              rw [lookupKey_setKey_other _ _ _ _ (fun hh => hid hh.symm), ih]
              cases hfd : firstDescr l id <;> simp

/-- The grouping loop never stores an identifier twice. -/
theorem gfold_keys_nodup (l : List (String × String × Finding)) :
    ((gfold l).map Prod.fst).Nodup := by
  induction l using List.reverseRecOn with
  | nil => simp [gfold]
  | append_singleton l t ih =>
    rw [gfold_concat]
    rcases t with ⟨pn, tf, f⟩
    rcases f with ⟨fid, fdesc⟩
    cases fid with
    | none => exact ih
    | some id0 =>
      cases fdesc with
      | none => exact ih
      | some d0 =>
        simp only [tripleStep, groupStep]
        cases hl : lookupKey (gfold l) id0 with
        | some v =>
          by_cases hany : (v.packages.any fun p => p.name = pn) = true
          · simp only [hany, if_true]
            exact ih
          · simp only [Bool.not_eq_true] at hany
            simp only [hany, Bool.false_eq_true, if_false]
            have hmem : id0 ∈ (gfold l).map Prod.fst :=
              (lookupKey_isSome_iff _ _).mp (by rw [hl]; rfl)
            rw [setKey_keys _ _ _ hmem]
            exact ih
        | none =>
          have hmem : ¬ id0 ∈ (gfold l).map Prod.fst := by
            intro hm
            have := (lookupKey_isSome_iff (gfold l) id0).mpr hm
            rw [hl] at this
            simp at this
          rw [List.map_append]
          simp only [List.map_cons, List.map_nil]
          rw [List.nodup_append]
          refine ⟨ih, List.nodup_singleton _, ?_⟩
          intro a ha hb
          rw [List.mem_singleton] at hb
          exact hmem (hb ▸ ha)

/-- A grouping step on an invalid finding leaves the store unchanged. -/
theorem tripleStep_invalid (s : List (String × Vulnerability))
    (t : String × String × Finding)
    (h : (t.2.2.id.isSome && t.2.2.description.isSome) = false) :
    tripleStep s t = s := by
  rcases t with ⟨pn, tf, f⟩
  rcases f with ⟨fid, fdesc⟩
  cases fid with
  | none => rfl
  | some id0 =>
    cases fdesc with
    | none => rfl
    | some d0 => simp at h

/-- Invalid findings contribute nothing to the grouping fold. -/
theorem gfold_filter_valid (l : List (String × String × Finding)) :
    gfold (l.filter fun t => t.2.2.id.isSome && t.2.2.description.isSome) = gfold l := by
  suffices h : ∀ s : List (String × Vulnerability),
      (l.filter fun t => t.2.2.id.isSome && t.2.2.description.isSome).foldl tripleStep s
        = l.foldl tripleStep s from h []
  induction l with
  | nil => intro s; rfl
  | cons t ts ih =>
    intro s
    by_cases ht : (t.2.2.id.isSome && t.2.2.description.isSome) = true
    · simp only [List.filter_cons, ht, if_true, List.foldl_cons]
      exact ih _
    · simp only [Bool.not_eq_true] at ht
      simp only [List.filter_cons, ht, Bool.false_eq_true, if_false, List.foldl_cons]
      rw [tripleStep_invalid s t ht]
      exact ih _

/-- Flattening commutes with removing the invalid findings. -/
theorem reportFindings_clean (report : List ScanProject) :
    reportFindings (cleanReport report) =
      (reportFindings report).filter
        (fun t => t.2.2.id.isSome && t.2.2.description.isSome) := by
  induction report with
  | nil => simp [reportFindings, cleanReport]
  | cons p ps ih =>
    have hmap : cleanReport (p :: ps) =
        { p with vulnerabilities :=
            p.vulnerabilities.filter (fun f => f.id.isSome && f.description.isSome) }
          :: cleanReport ps := rfl
    rw [hmap, reportFindings_cons, reportFindings_cons, ih, List.filter_append]
    congr 1
    rw [List.filter_map]
    rfl

/-! ### Lemmas about the issue-index fold -/

theorem issueFold_map (L : List GithubIssue) :
    ∀ (m : List (String × Nat)) (logs : List String),
      ((m.map Prod.fst) ++ L.filterMap (fun i => snykIdExtract i.title)).Nodup →
      (L.foldl issueIndexStep (m, logs)).1 =
        m ++ L.filterMap (fun i => (snykIdExtract i.title).map (fun id => (id, i.number))) := by
  induction L with
  | nil =>
    intro m logs _
    simp
  | cons i L ih =>
    intro m logs hnd
    cases hx : snykIdExtract i.title with
    | none =>
      simp only [List.filterMap_cons, hx] at hnd ⊢
      simp only [List.foldl_cons, issueIndexStep, hx]
      simp only [Option.map_none']
      exact ih m _ hnd
    | some id =>
      simp only [List.filterMap_cons, hx] at hnd ⊢
      have hnotm : ¬ id ∈ m.map Prod.fst := by
        intro hm
        have hdisj := (List.nodup_append.mp hnd).2.2
        exact hdisj hm (List.mem_cons_self _ _)
      simp only [List.foldl_cons, issueIndexStep, hx]
      rw [setKey_of_not_mem m id i.number hnotm]
      have hnd2 : (((m ++ [(id, i.number)]).map Prod.fst) ++
          L.filterMap (fun i => snykIdExtract i.title)).Nodup := by
        rw [List.map_append]
        simp only [List.map_cons, List.map_nil]
        rw [List.append_assoc]
        simpa using hnd
      rw [ih (m ++ [(id, i.number)]) logs hnd2]
      simp

theorem issueFold_logs_mono (L : List GithubIssue) :
    ∀ (acc : List (String × Nat) × List String) (x : String),
      x ∈ acc.2 → x ∈ (L.foldl issueIndexStep acc).2 := by
  induction L with
  | nil =>
    intro acc x hx
    exact hx
  | cons i L ih =>
    intro acc x hx
    rw [List.foldl_cons]
    apply ih
    cases h : snykIdExtract i.title <;> simp [issueIndexStep, h, hx]

theorem issueFold_logs_unmatched (L : List GithubIssue) :
    ∀ (acc : List (String × Nat) × List String), ∀ i ∈ L, snykIdExtract i.title = none →
      ("Unmatched Snyk ID for " ++ i.title) ∈ (L.foldl issueIndexStep acc).2 := by
  induction L with
  | nil =>
    intro acc i hi
    simp at hi
  | cons j L ih =>
    intro acc i hi hnone
    rcases List.mem_cons.mp hi with h | h
    · subst h
      rw [List.foldl_cons]
      apply issueFold_logs_mono
      simp [issueIndexStep, hnone]
    · exact ih _ i h hnone

/-! ### Lemmas about the reconciliation plan -/

/-- The decision `main`'s first loop takes for one store entry. -/
theorem planEntry_opId (index : List (String × Nat)) (e : String × Vulnerability) :
    opId (match lookupKey index e.1 with
      | some n => if n ≠ 0 then SyncOp.update e.1 n e.2 else SyncOp.create e.1 e.2
      | none => SyncOp.create e.1 e.2) = e.1 := by
  cases lookupKey index e.1 with
  | none => rfl
  | some n =>
    by_cases h : n = 0 <;> simp [opId, h]

theorem filter_key_of_nodup (store : List (String × α)) (id : String)
    (h : (store.map Prod.fst).Nodup) :
    store.filter (fun e => e.1 = id) =
      (lookupKey store id).elim [] (fun v => [(id, v)]) := by
  induction store with
  | nil => simp [lookupKey]
  | cons e es ih =>
    rw [List.map_cons, List.nodup_cons] at h
    by_cases he : e.1 = id
    · have hnil : es.filter (fun e => e.1 = id) = [] := by
        rw [List.filter_eq_nil_iff]
        intro a ha hk
        have hk' : a.1 = id := of_decide_eq_true hk
        apply h.1
        rw [he, ← hk']
        exact List.mem_map.mpr ⟨a, ha, rfl⟩
      obtain ⟨a, b⟩ := e
      simp only at he
      subst he
      simp [List.filter_cons, lookupKey, hnil]
    · have hp : (decide (e.1 = id)) = false := by simp [he]
      simp only [List.filter_cons, hp, Bool.false_eq_true, if_false]
      simp only [lookupKey]
      rw [if_neg he]
      exact ih h.2

theorem filterMap_filter (g : α → Option β) (p : β → Bool) (l : List α) :
    (l.filterMap g).filter p =
      l.filterMap (fun a => (g a).bind (fun b => if p b then some b else none)) := by
  induction l with
  | nil => rfl
  | cons a l ih =>
    cases hg : g a with
    | none => simp [List.filterMap_cons, hg, ih]
    | some b =>
      by_cases hp : p b = true
      · simp [List.filterMap_cons, hg, hp, List.filter_cons, ih]
      · simp only [Bool.not_eq_true] at hp
        simp [List.filterMap_cons, hg, hp, List.filter_cons, ih]

theorem close_ops_filter (store : List (String × Vulnerability))
    (index : List (String × Nat)) (id : String)
    (hi : (index.map Prod.fst).Nodup) :
    index.filterMap (fun e =>
        ((if (lookupKey store e.1).isSome then none
          else some (SyncOp.close e.1 e.2)).bind
          (fun op => if opId op = id then some op else none))) =
      if (lookupKey store id).isSome then []
      else (lookupKey index id).elim [] (fun n => [SyncOp.close id n]) := by
  induction index with
  | nil =>
    simp [lookupKey]
  | cons e es ih =>
    rw [List.map_cons, List.nodup_cons] at hi
    by_cases he : e.1 = id
    · by_cases hs : (lookupKey store e.1).isSome = true
      · have hs' : (lookupKey store id).isSome = true := he ▸ hs
        simp only [List.filterMap_cons, hs, if_true, Option.none_bind]
        rw [ih hi.2, hs']
        simp
      · simp only [Bool.not_eq_true] at hs
        have hs' : (lookupKey store id).isSome = false := he ▸ hs
        have hlookes : lookupKey es id = none := by
          rw [lookupKey_eq_none_iff]
          intro a ha hak
          apply hi.1
          rw [he, ← hak]
          exact List.mem_map.mpr ⟨a, ha, rfl⟩
        have hhead : ((if (lookupKey store e.1).isSome then none
            else some (SyncOp.close e.1 e.2)).bind
            (fun op => if opId op = id then some op else none))
              = some (SyncOp.close id e.2) := by
          rw [he]
          simp [hs', opId]
        simp only [List.filterMap_cons, hhead]
        rw [ih hi.2]
        simp [hs', hlookes, lookupKey, he]
    · have hstep : ((if (lookupKey store e.1).isSome then none
          else some (SyncOp.close e.1 e.2)).bind
          (fun op => if opId op = id then some op else none)) = none := by
        by_cases hs : (lookupKey store e.1).isSome = true
        · simp [hs]
        · simp only [Bool.not_eq_true] at hs
          simp [hs, opId, he]
      simp only [List.filterMap_cons, hstep]
      rw [ih hi.2]
      have hck : lookupKey (e :: es) id = lookupKey es id := by
        simp only [lookupKey]
        rw [if_neg he]
      rw [hck]

/-! ### Lookup lemmas for the second-run index -/

theorem lookupKey_filter_keyprop (p : String → Bool) (m : List (String × α))
    (k : String) (hp : p k = true) :
    lookupKey (m.filter (fun e => p e.1)) k = lookupKey m k := by
  induction m with
  | nil => simp
  | cons e es ih =>
    by_cases he : e.1 = k
    · have hpe : p e.1 = true := by rw [he]; exact hp
      simp only [List.filter_cons, hpe, if_true, lookupKey]
      rw [if_pos he, if_pos he]
    · by_cases hpe : p e.1 = true
      · simp only [List.filter_cons, hpe, if_true, lookupKey]
        rw [if_neg he, if_neg he]
        exact ih
      · simp only [Bool.not_eq_true] at hpe
        simp only [List.filter_cons, hpe, Bool.false_eq_true, if_false, lookupKey]
        rw [if_neg he]
        exact ih

theorem lookupKey_filter_none (q : String × α → Bool) (m : List (String × α))
    (k : String) (h : lookupKey m k = none) :
    lookupKey (m.filter q) k = none := by
  rw [lookupKey_eq_none_iff] at h ⊢
  intro e he
  exact h e (List.mem_filter.mp he).1

theorem lookupKey_created (index : List (String × Nat)) (fresh : String → Nat)
    (store : List (String × Vulnerability)) (k : String)
    (hmem : k ∈ store.map Prod.fst) (hnone : lookupKey index k = none) :
    lookupKey (store.filterMap (fun e =>
        if (lookupKey index e.1).isSome then none else some (e.1, fresh e.1))) k
      = some (fresh k) := by
  induction store with
  | nil => simp at hmem
  | cons e es ih =>
    by_cases he : e.1 = k
    · have : (lookupKey index e.1).isSome = false := by
        rw [he, hnone]
        rfl
      simp only [List.filterMap_cons, this, Bool.false_eq_true, if_false, lookupKey]
      rw [if_pos he, he]
    · have hmem2 : k ∈ es.map Prod.fst := by
        rcases List.mem_map.mp hmem with ⟨x, hx, hx1⟩
        rcases List.mem_cons.mp hx with h1 | h1
        · exact absurd (h1 ▸ hx1) he
        · exact List.mem_map.mpr ⟨x, h1, hx1⟩
      by_cases hs : (lookupKey index e.1).isSome = true
      · simp only [List.filterMap_cons, hs, if_true]
        exact ih hmem2
      · simp only [Bool.not_eq_true] at hs
        simp only [List.filterMap_cons, hs, Bool.false_eq_true, if_false, lookupKey]
        rw [if_neg he]
        exact ih hmem2

/-! ### Claim theorems -/

/-- C3: for every report, every identifier with a valid (id and
description present) finding appears exactly once in the grouped output
(`groupReport` keys are without duplicates and the lookup succeeds exactly
when a valid finding exists), its package list is the occurrence list
deduplicated by package name in first-seen order
(`firstSeenByName (occPackages ...)`), and findings whose id or
description is missing contribute nothing (grouping the report equals
grouping the report with those findings removed). -/
theorem grouping_characterization (report : List ScanProject) :
    ((groupReport report).map Prod.fst).Nodup ∧
    (∀ id : String, lookupKey (groupReport report) id =
      (firstDescr (reportFindings report) id).map (fun d =>
        { description := d,
          packages := firstSeenByName (occPackages (reportFindings report) id),
          snykId := id })) ∧
    groupReport report = groupReport (cleanReport report) := by
  refine ⟨?_, ?_, ?_⟩
  · rw [groupReport_eq_gfold]
    exact gfold_keys_nodup _
  · intro id
    rw [groupReport_eq_gfold]
    exact gfold_lookup _ id
  · rw [groupReport_eq_gfold, groupReport_eq_gfold (cleanReport report),
      reportFindings_clean, gfold_filter_valid]

/-- C10: the description stored for an identifier is the description of
the first valid finding with that identifier in report scan order; later
findings never change it. -/
theorem first_description_wins (report : List ScanProject) (id : String) :
    (lookupKey (groupReport report) id).map (fun v => v.description) =
      firstDescr (reportFindings report) id := by
  rw [groupReport_eq_gfold, gfold_lookup]
  cases firstDescr (reportFindings report) id <;> rfl

/-- C5: a dry run issues no tracker calls at all, and its console log of
the decision sequence is identical to that of a live run on the same
store and index (the logging in the three helpers is unconditional, only
the guarded `octokit` calls differ). -/
theorem dryrun_no_calls_same_logs (store : List (String × Vulnerability))
    (index : List (String × Nat)) :
    (mainRun true store index).2 = [] ∧
    (mainRun true store index).1 = (mainRun false store index).1 := by
  refine ⟨?_, rfl⟩
  simp only [mainRun]
  rw [List.flatten_eq_nil_iff]
  intro l hl
  rcases List.mem_map.mp hl with ⟨op, hop, rfl⟩
  cases op <;> rfl

/-- C8: the issue body is a pure function of the vulnerability record:
the fixed heading, one bullet line `* [name](target)` per affected
package joined by newlines, and then the description text verbatim —
no escaping is applied to either. -/
theorem generateIssueBody_format (v : Vulnerability) :
    generateIssueBody v =
      "\n## Affecting Packages/Plugins\n\n" ++
        String.intercalate "\n"
          (v.packages.map (fun p => "* [" ++ p.name ++ "](" ++ p.target ++ ")")) ++
        "\n\n" ++ v.description ++ "\n" := rfl

/-- C9: with the token environment variable absent the program exits with
code 1 and the explanatory message before doing anything else: the result
carries no log line and no tracker call, the index is never built and the
report never processed. -/
theorem missing_token_exits (dryRun : Bool) (repo : List GithubIssue)
    (report : List ScanProject) :
    runProgram none dryRun repo report =
      Except.error (1, "GITHUB_TOKEN is not set. Please provide a Github token") := rfl

theorem create_update_part_filter (store : List (String × Vulnerability))
    (index : List (String × Nat)) (id : String)
    (hs : (store.map Prod.fst).Nodup) :
    ((store.map (fun e => match lookupKey index e.1 with
        | some n => if n ≠ 0 then SyncOp.update e.1 n e.2 else SyncOp.create e.1 e.2
        | none => SyncOp.create e.1 e.2)).filter (fun op => opId op = id)) =
      (lookupKey store id).elim []
        (fun v => [match lookupKey index id with
          | some n => if n ≠ 0 then SyncOp.update id n v else SyncOp.create id v
          | none => SyncOp.create id v]) := by
  rw [List.filter_map]
  have hflt : store.filter ((fun op => decide (opId op = id)) ∘
        (fun e => match lookupKey index e.1 with
          | some n => if n ≠ 0 then SyncOp.update e.1 n e.2 else SyncOp.create e.1 e.2
          | none => SyncOp.create e.1 e.2)) =
      store.filter (fun e => e.1 = id) := by
    apply List.filter_congr
    intro e _
    show decide (opId (match lookupKey index e.1 with
      | some n => if n ≠ 0 then SyncOp.update e.1 n e.2 else SyncOp.create e.1 e.2
      | none => SyncOp.create e.1 e.2) = id) = decide (e.1 = id)
    rw [planEntry_opId]
  rw [hflt, filter_key_of_nodup store id hs]
  cases lookupKey store id <;> rfl

theorem filterMap_ext (f g : α → Option β) (l : List α)
    (h : ∀ a ∈ l, f a = g a) : l.filterMap f = l.filterMap g := by
  induction l with
  | nil => rfl
  | cons a l ih =>
    simp only [List.filterMap_cons, h a (List.mem_cons_self _ _),
      ih (fun x hx => h x (List.mem_cons_of_mem _ hx))]

/-- C1: when the issue index carries no duplicate identifiers and only
genuine (positive) issue numbers, each identifier triggers exactly the
planned operation and nothing else: in the report only → one CREATE, in
both → one UPDATE of the mapped number, in the index only → one CLOSE of
the mapped number, in neither → nothing. -/
theorem plan_exactly_one_op (store : List (String × Vulnerability))
    (index : List (String × Nat)) (id : String)
    (hs : (store.map Prod.fst).Nodup) (hi : (index.map Prod.fst).Nodup)
    (hpos : ∀ e ∈ index, 0 < e.2) :
    opsForId id (computePlan store index) =
      match lookupKey store id, lookupKey index id with
      | some v, some n => [SyncOp.update id n v]
      | some v, none => [SyncOp.create id v]
      | none, some n => [SyncOp.close id n]
      | none, none => [] := by
  unfold opsForId computePlan
  rw [List.filter_append]
  rw [create_update_part_filter store index id hs]
  rw [filterMap_filter]
  have hbr : index.filterMap (fun e =>
      ((if (lookupKey store e.1).isSome then none
        else some (SyncOp.close e.1 e.2)).bind
        (fun b => if (fun op => decide (opId op = id)) b then some b else none)))
      = index.filterMap (fun e =>
        ((if (lookupKey store e.1).isSome then none
          else some (SyncOp.close e.1 e.2)).bind
          (fun op => if opId op = id then some op else none))) := by
    apply filterMap_ext
    intro e _
    cases hse : (lookupKey store e.1).isSome <;> simp [hse]
  rw [hbr, close_ops_filter store index id hi]
  cases hsl : lookupKey store id with
  | some v =>
    cases hil : lookupKey index id with
    | some n =>
      have hn : n ≠ 0 := Nat.pos_iff_ne_zero.mp (hpos (id, n) (lookupKey_mem _ _ _ hil))
      simp [hn]
    | none => simp
  | none =>
    cases hil : lookupKey index id with
    | some n => simp
    | none => simp

/-- C2: running reconciliation twice with the report unchanged — the
second run's issue index being the first one with the CLOSEd identifiers
removed and the CREATEd identifiers added under fresh (positive) tracker
numbers, as `indexAfterRun` words it — makes the second run's plan consist
of UPDATE operations only, one of which exists for every identifier of the
grouped report. -/
theorem second_run_only_updates (report : List ScanProject)
    (index : List (String × Nat)) (fresh : String → Nat)
    (hpos : ∀ e ∈ index, 0 < e.2) (hfresh : ∀ s : String, 0 < fresh s) :
    (∀ op ∈ computePlan (groupReport report)
        (indexAfterRun (groupReport report) index fresh),
      ∃ i n v, op = SyncOp.update i n v) ∧
    (∀ e ∈ groupReport report,
      ∃ n, 0 < n ∧ SyncOp.update e.1 n e.2 ∈ computePlan (groupReport report)
        (indexAfterRun (groupReport report) index fresh)) := by
  have hkey : ∀ e ∈ groupReport report,
      ∃ n, lookupKey (indexAfterRun (groupReport report) index fresh) e.1 = some n
        ∧ 0 < n := by
    intro e he
    have hmem : e.1 ∈ (groupReport report).map Prod.fst :=
      List.mem_map.mpr ⟨e, he, rfl⟩
    rw [indexAfterRun, lookupKey_append]
    cases hli : lookupKey index e.1 with
    | some n =>
      refine ⟨n, ?_, hpos _ (lookupKey_mem _ _ _ hli)⟩
      have h1 : lookupKey (index.filter
          (fun x => (lookupKey (groupReport report) x.1).isSome)) e.1 = some n := by
        have h2 := lookupKey_filter_keyprop
          (fun k => (lookupKey (groupReport report) k).isSome) index e.1
          ((lookupKey_isSome_iff (groupReport report) e.1).mpr hmem)
        rw [← hli]
        exact h2
      rw [h1]
      rfl
    | none =>
      refine ⟨fresh e.1, ?_, hfresh e.1⟩
      have h1 : lookupKey (index.filter
          (fun x => (lookupKey (groupReport report) x.1).isSome)) e.1 = none :=
        lookupKey_filter_none _ _ _ hli
      rw [h1]
      exact lookupKey_created index fresh (groupReport report) e.1 hmem hli
  have hclose : (indexAfterRun (groupReport report) index fresh).filterMap
      (fun e => if (lookupKey (groupReport report) e.1).isSome then none
        else some (SyncOp.close e.1 e.2)) = [] := by
    rw [List.filterMap_eq_nil_iff]
    intro e he
    have hse : (lookupKey (groupReport report) e.1).isSome = true := by
      rw [indexAfterRun] at he
      rcases List.mem_append.mp he with h1 | h2
      · exact (List.mem_filter.mp h1).2
      · rcases List.mem_filterMap.mp h2 with ⟨x, hx, hgx⟩
        split at hgx
        · exact Option.noConfusion hgx
        · injection hgx with hgx'
          rw [← hgx']
          exact (lookupKey_isSome_iff (groupReport report) x.1).mpr
            (List.mem_map.mpr ⟨x, hx, rfl⟩)
    simp [hse]
  constructor
  · intro op hop
    simp only [computePlan, List.mem_append] at hop
    rcases hop with h1 | h2
    · rcases List.mem_map.mp h1 with ⟨e, he, heq⟩
      obtain ⟨n, hln, hn⟩ := hkey e he
      refine ⟨e.1, n, e.2, ?_⟩
      rw [hln] at heq
      have hne : n ≠ 0 := Nat.pos_iff_ne_zero.mp hn
      simp only [hne, ne_eq, not_false_eq_true, if_true] at heq
      exact heq.symm
    · rw [hclose] at h2
      exact absurd h2 (List.not_mem_nil _)
  · intro e he
    obtain ⟨n, hln, hn⟩ := hkey e he
    have hne : n ≠ 0 := Nat.pos_iff_ne_zero.mp hn
    refine ⟨n, hn, ?_⟩
    simp only [computePlan, List.mem_append]
    left
    apply List.mem_map.mpr
    refine ⟨e, he, ?_⟩
    rw [hln]
    simp [hne]

/-- C4: extraction against a title succeeds exactly when the title
contains a bracketed nonempty token over the class `[A-Z0-9-:]` matched
case-insensitively; a successful capture occurs verbatim in the title (no
case normalization); when the extracted identifiers are pairwise distinct
the index has exactly one entry per matched open labeled issue, in order;
and every unmatched open labeled issue is logged and excluded. -/
theorem issue_index_extraction :
    (∀ t : List Char, (snykIdExecL t).isSome = true ↔
      ∃ pre tok post, t = pre ++ '[' :: (tok ++ ']' :: post) ∧ tok ≠ [] ∧
        ∀ c ∈ tok, isSnykIdChar c = true) ∧
    (∀ t tok, snykIdExecL t = some tok →
      ∃ pre post, t = pre ++ '[' :: (tok ++ ']' :: post)) ∧
    (∀ repo : List GithubIssue,
      ((openLabeledIssues repo).filterMap (fun i => snykIdExtract i.title)).Nodup →
      fetchSnykGithubIssueMap repo =
        (openLabeledIssues repo).filterMap
          (fun i => (snykIdExtract i.title).map (fun id => (id, i.number)))) ∧
    (∀ repo : List GithubIssue, ∀ i ∈ openLabeledIssues repo,
      snykIdExtract i.title = none →
        ("Unmatched Snyk ID for " ++ i.title) ∈ (fetchSnykGithubIssueMapRun repo).2) := by
  refine ⟨?_, ?_, ?_, ?_⟩
  · intro t
    constructor
    · intro h
      obtain ⟨tok, htok⟩ := Option.isSome_iff_exists.mp h
      obtain ⟨pre, post, hl, hne, hchars⟩ := snykIdExecL_sound t tok htok
      exact ⟨pre, tok, post, hl, hne, hchars⟩
    · rintro ⟨pre, tok, post, rfl, hne, hchars⟩
      exact snykIdExecL_complete pre tok post hne hchars
  · intro t tok h
    obtain ⟨pre, post, hl, _, _⟩ := snykIdExecL_sound t tok h
    exact ⟨pre, post, hl⟩
  · intro repo hnd
    have h := issueFold_map (openLabeledIssues repo) [] [] (by simpa using hnd)
    simpa [fetchSnykGithubIssueMap, fetchSnykGithubIssueMapRun] using h
  · intro repo i hi hnone
    exact issueFold_logs_unmatched (openLabeledIssues repo) ([], []) i hi hnone

/-- C6: the modelled tracker effect of the exact call shapes the script
issues — an UPDATE call carries only a new body and leaves every issue's
number, title, labels and state unchanged (replacing the body of the
targeted issue only), and a CLOSE call leaves number, title, labels and
body unchanged and only moves the targeted issue's state to `closed`;
moreover update decisions emit exactly a body-only call and close
decisions exactly a state-only call. -/
theorem update_close_frame (repo : List GithubIssue) (n : Nat) (b : String) :
    (∀ j ∈ applyApiCall repo (ApiCall.updateBody n b),
      ∃ i, i ∈ repo ∧ j.number = i.number ∧ j.title = i.title ∧
        j.labels = i.labels ∧ j.state = i.state ∧
        (i.number = n → j.body = b) ∧ (i.number ≠ n → j.body = i.body)) ∧
    (∀ j ∈ applyApiCall repo (ApiCall.updateState n "closed"),
      ∃ i, i ∈ repo ∧ j.number = i.number ∧ j.title = i.title ∧
        j.labels = i.labels ∧ j.body = i.body ∧
        (i.number = n → j.state = "closed") ∧ (i.number ≠ n → j.state = i.state)) ∧
    (∀ (i2 : String) (v : Vulnerability),
      opCalls false (SyncOp.update i2 n v) = [ApiCall.updateBody n (generateIssueBody v)] ∧
      opCalls false (SyncOp.close i2 n) = [ApiCall.updateState n "closed"]) := by
  refine ⟨?_, ?_, ?_⟩
  · intro j hj
    simp only [applyApiCall] at hj
    rcases List.mem_map.mp hj with ⟨i, hi, rfl⟩
    by_cases hin : i.number = n
    · exact ⟨i, hi, by simp [hin], by simp [hin], by simp [hin], by simp [hin],
        fun _ => by simp [hin], fun h => absurd hin h⟩
    · exact ⟨i, hi, by simp [hin], by simp [hin], by simp [hin], by simp [hin],
        fun h => absurd h hin, fun _ => by simp [hin]⟩
  · intro j hj
    simp only [applyApiCall] at hj
    rcases List.mem_map.mp hj with ⟨i, hi, rfl⟩
    by_cases hin : i.number = n
    · exact ⟨i, hi, by simp [hin], by simp [hin], by simp [hin], by simp [hin],
        fun _ => by simp [hin], fun h => absurd hin h⟩
    · exact ⟨i, hi, by simp [hin], by simp [hin], by simp [hin], by simp [hin],
        fun h => absurd h hin, fun _ => by simp [hin]⟩
  · intro i2 v
    exact ⟨rfl, rfl⟩

/-- C7: every CREATE call issued by a live run stems from a store entry
and has exactly the title `Snyk vulnerability [ID]`, exactly the labels
`snyk-vulnerability` and `help wanted`, and the rendered body for that
entry's record. -/
theorem create_call_shape (store : List (String × Vulnerability))
    (index : List (String × Nat)) (t : String) (ls : List String) (b : String)
    (h : ApiCall.createIssue t ls b ∈ (mainRun false store index).2) :
    ∃ e ∈ store, t = "Snyk vulnerability [" ++ e.2.snykId ++ "]" ∧
      ls = ["snyk-vulnerability", "help wanted"] ∧
      b = generateIssueBody e.2 := by
  simp only [mainRun] at h
  rw [List.mem_flatten] at h
  obtain ⟨l, hl, hc⟩ := h
  rcases List.mem_map.mp hl with ⟨op, hop, rfl⟩
  cases op with
  | update i m v => simp [opCalls] at hc
  | close i m => simp [opCalls] at hc
  | create i v =>
    simp only [opCalls, Bool.false_eq_true, if_false, List.mem_singleton] at hc
    simp only [computePlan, List.mem_append] at hop
    rcases hop with h1 | h2
    · rcases List.mem_map.mp h1 with ⟨e, he, heq⟩
      have hv : v = e.2 := by
        split at heq
        · split at heq
          · simp at heq
          · injection heq with h1' h2'
            exact h2'.symm
        · injection heq with h1' h2'
          exact h2'.symm
      refine ⟨e, he, ?_, ?_, ?_⟩
      · rw [ApiCall.createIssue.injEq] at hc
        rw [hc.1, hv]
      · rw [ApiCall.createIssue.injEq] at hc
        rw [hc.2.1]
        rfl
      · rw [ApiCall.createIssue.injEq] at hc
        rw [hc.2.2, hv]
    · rcases List.mem_filterMap.mp h2 with ⟨x, hx, hgx⟩
      split at hgx
      · exact Option.noConfusion hgx
      · injection hgx with hgx'
        exact absurd hgx' (by simp)

/-- The per-identifier plan characterization evaluated at a concrete
store and index. -/
theorem plan_exactly_one_op_witness :
    opsForId "A" (computePlan
      [("A", { description := "d", packages := [{ name := "foo", target := "yarn.lock" }],
               snykId := "A" })]
      [("A", 7), ("B", 9)]) =
      [SyncOp.update "A" 7
        { description := "d", packages := [{ name := "foo", target := "yarn.lock" }],
          snykId := "A" }] := by
  rw [plan_exactly_one_op _ _ "A" (by decide) (by decide) (by decide)]
  decide

/-- The second-run theorem evaluated at a concrete report, index and
fresh-number assignment. -/
theorem second_run_only_updates_witness :
    ∃ n, 0 < n ∧ SyncOp.update "X-1" n
        { description := "d1", packages := [{ name := "pkgA", target := "lock1" }],
          snykId := "X-1" }
      ∈ computePlan
        (groupReport [{ projectName := "pkgA", displayTargetFile := "lock1",
                        vulnerabilities := [{ id := some "X-1", description := some "d1" }] }])
        (indexAfterRun
          (groupReport [{ projectName := "pkgA", displayTargetFile := "lock1",
                          vulnerabilities := [{ id := some "X-1", description := some "d1" }] }])
          [("OLD", 3)] (fun _ => 5)) :=
  (second_run_only_updates
    [{ projectName := "pkgA", displayTargetFile := "lock1",
       vulnerabilities := [{ id := some "X-1", description := some "d1" }] }]
    [("OLD", 3)] (fun _ => 5) (by decide) (fun _ => Nat.succ_pos 4)).2
    ("X-1", { description := "d1", packages := [{ name := "pkgA", target := "lock1" }],
              snykId := "X-1" })
    (by decide)

/-- The extraction and indexing theorem evaluated at a concrete pair of
issues, one matched and one unmatched. -/
theorem issue_index_extraction_witness :
    fetchSnykGithubIssueMap
      [{ number := 3, title := "Snyk vulnerability [X-9]",
         labels := ["snyk-vulnerability"], body := "", state := "open" },
       { number := 4, title := "busted title",
         labels := ["snyk-vulnerability"], body := "", state := "open" }]
      = [("X-9", 3)] ∧
    ("Unmatched Snyk ID for busted title") ∈
      (fetchSnykGithubIssueMapRun
        [{ number := 3, title := "Snyk vulnerability [X-9]",
           labels := ["snyk-vulnerability"], body := "", state := "open" },
         { number := 4, title := "busted title",
           labels := ["snyk-vulnerability"], body := "", state := "open" }]).2 := by
  constructor
  · rw [issue_index_extraction.2.2.1 _ (by decide)]
    decide
  · exact issue_index_extraction.2.2.2 _
      { number := 4, title := "busted title", labels := ["snyk-vulnerability"],
        body := "", state := "open" }
      (by decide) (by decide)

/-- The frame theorem evaluated at a concrete one-issue repository. -/
theorem update_close_frame_witness :
    ∃ i, i ∈ [({ number := 1, title := "t", labels := ["l"], body := "b", state := "open" } : GithubIssue)] ∧
      ({ number := 1, title := "t", labels := ["l"], body := "nb", state := "open" } : GithubIssue).number = i.number ∧
      ({ number := 1, title := "t", labels := ["l"], body := "nb", state := "open" } : GithubIssue).title = i.title ∧
      ({ number := 1, title := "t", labels := ["l"], body := "nb", state := "open" } : GithubIssue).labels = i.labels ∧
      ({ number := 1, title := "t", labels := ["l"], body := "nb", state := "open" } : GithubIssue).state = i.state ∧
      (i.number = 1 → ({ number := 1, title := "t", labels := ["l"], body := "nb", state := "open" } : GithubIssue).body = "nb") ∧
      (i.number ≠ 1 → ({ number := 1, title := "t", labels := ["l"], body := "nb", state := "open" } : GithubIssue).body = i.body) :=
  (update_close_frame
    [{ number := 1, title := "t", labels := ["l"], body := "b", state := "open" }]
    1 "nb").1
    { number := 1, title := "t", labels := ["l"], body := "nb", state := "open" }
    (by decide)

/-- The CREATE-shape theorem evaluated at a concrete store and call. -/
theorem create_call_shape_witness :
    ∃ e ∈ [("A-1", ({ description := "d", packages := [{ name := "foo", target := "yarn.lock" }], snykId := "A-1" } : Vulnerability))],
      "Snyk vulnerability [A-1]" = "Snyk vulnerability [" ++ e.2.snykId ++ "]" ∧
      ["snyk-vulnerability", "help wanted"] = ["snyk-vulnerability", "help wanted"] ∧
      generateIssueBody { description := "d", packages := [{ name := "foo", target := "yarn.lock" }], snykId := "A-1" }
        = generateIssueBody e.2 :=
  create_call_shape
    [("A-1", { description := "d", packages := [{ name := "foo", target := "yarn.lock" }], snykId := "A-1" })]
    [] "Snyk vulnerability [A-1]" ["snyk-vulnerability", "help wanted"]
    (generateIssueBody { description := "d", packages := [{ name := "foo", target := "yarn.lock" }], snykId := "A-1" })
    (by decide)
